import Mathlib

/-! Verification of the core numeric pipeline of `gpx_analyzer.py`:
cumulative haversine distances, piecewise-linear elevation interpolation,
fixed-interval slope segmentation, slope classification, and nearest-point
waypoint projection.

The pure numeric functions (`interpolate_elevation`, `segment_slopes`,
`slope_to_color`) are embedded over exact arithmetic (`ℚ`); the geodesic
functions (`haversine`, `compute_distances`, `waypoint_positions`) are
embedded over `ℝ`. A Python indexing error (`xs[-1]` or `xs[i]` on a
too-short list) is modelled by `Option`: `none` is an uncaught
`IndexError`. -/

namespace GpxAnalyzer

/-- Python `int(q)` truncates toward zero. -/
def pyInt (q : ℚ) : ℤ := if 0 ≤ q then ⌊q⌋ else ⌈q⌉

/-- Python `range(start, stop, step)` for a positive `step`: the integers
`start, start + step, ...` strictly below `stop`. -/
def pyRange (start stop step : ℤ) : List ℤ :=
  (List.range ((stop - start + step - 1).ediv step).toNat).map fun k => start + step * (k : ℤ)

/-- The search loop of `interpolate_elevation` (`gpx_analyzer.py` lines
59-68): `rest` is `dists.drop i`, so the head of `rest` is `dists[i]`.
Falling off the end returns `eles[-1]`. -/
def interp_go (distance : ℚ) (dists eles : List ℚ) : ℕ → List ℚ → Option ℚ
  | _, [] => eles.getLast?
  | i, di :: rest =>
    if distance ≤ di then
      match dists.get? (i - 1), eles.get? (i - 1), eles.get? i with
      | some d0, some e0, some e1 =>
          if di = d0 then some e1
          else some (e0 + (distance - d0) / (di - d0) * (e1 - e0))
      | _, _, _ => none
    else interp_go distance dists eles (i + 1) rest

/-- `interpolate_elevation(distance, dists, eles)` (`gpx_analyzer.py` lines
59-68): scans `i = 1, ..., len(dists) - 1` for the first `i` with
`distance <= dists[i]` and interpolates linearly on that interval. -/
def interpolate_elevation (distance : ℚ) (dists eles : List ℚ) : Option ℚ :=
  interp_go distance dists eles 1 (dists.drop 1)

/-- A Python float as consumed by `slope_to_color`: either NaN or an exact
value. Every comparison against NaN is false, as in IEEE 754. -/
inductive Fl where
  | nan : Fl
  | val : ℚ → Fl
deriving DecidableEq

/-- Float multiplication by a constant; NaN is absorbing. -/
def flMul (x : Fl) (c : ℚ) : Fl :=
  match x with
  | .nan => .nan
  | .val q => .val (q * c)

/-- Float `<` against a constant; false when the left side is NaN. -/
def flLt (x : Fl) (c : ℚ) : Bool :=
  match x with
  | .nan => false
  | .val q => decide (q < c)

/-- `slope_to_color(slope)` (`gpx_analyzer.py` lines 71-84). -/
def slope_to_color (slope : Fl) : String :=
  let pct := flMul slope 100
  if flLt pct 0 then "blue"
  else if flLt pct 3 then "darkgreen"
  else if flLt pct 6 then "limegreen"
  else if flLt pct 10 then "yellow"
  else if flLt pct 15 then "orange"
  else "red"

/-- `segment_slopes(dists, eles, segment)` (`gpx_analyzer.py` lines 87-102).
`boundaries0` is the Python list comprehension
`[i for i in range(0, int(total // segment) * int(segment) + int(segment) + 1, int(segment))]`
(note `total // segment` already floors, so `int` of it is `⌊total / segment⌋`).
The Python default argument is `segment=100.0`; here `segment` is passed
explicitly. -/
def segment_slopes (dists eles : List ℚ) (segment : ℚ) : Option (List (ℚ × ℚ × ℚ)) := do
  let total ← dists.getLast?
  let istep : ℤ := pyInt segment
  let boundaries0 : List ℚ :=
    (pyRange 0 (⌊total / segment⌋ * istep + istep + 1) istep).map fun z : ℤ => (z : ℚ)
  let blast ← boundaries0.getLast?
  let boundaries := if blast < total then boundaries0 ++ [total] else boundaries0
  (List.range (boundaries.length - 1)).mapM fun i => do
    let start_d ← boundaries.get? i
    let end_d ← boundaries.get? (i + 1)
    let start_e ← interpolate_elevation start_d dists eles
    let end_e ← interpolate_elevation end_d dists eles
    let seg_dist := end_d - start_d
    let slope := if seg_dist ≠ 0 then (end_e - start_e) / seg_dist else 0
    pure (start_d, end_d, slope)

/-- Division that fails on a zero divisor. It instruments the two division
sites of the source to show the code's own zero-length-interval guards make
every division safe. -/
def safeDiv (a b : ℚ) : Option ℚ := if b = 0 then none else some (a / b)

/-- `interp_go` with its division routed through `safeDiv`. -/
def interp_go_checked (distance : ℚ) (dists eles : List ℚ) : ℕ → List ℚ → Option ℚ
  | _, [] => eles.getLast?
  | i, di :: rest =>
    if distance ≤ di then
      match dists.get? (i - 1), eles.get? (i - 1), eles.get? i with
      | some d0, some e0, some e1 =>
          if di = d0 then some e1
          else do
            let ratio ← safeDiv (distance - d0) (di - d0)
            pure (e0 + ratio * (e1 - e0))
      | _, _, _ => none
    else interp_go_checked distance dists eles (i + 1) rest

/-- `interpolate_elevation` with its division routed through `safeDiv`. -/
def interpolate_elevation_checked (distance : ℚ) (dists eles : List ℚ) : Option ℚ :=
  interp_go_checked distance dists eles 1 (dists.drop 1)

/-- `segment_slopes` with its division routed through `safeDiv` (and using
the checked interpolator). -/
def segment_slopes_checked (dists eles : List ℚ) (segment : ℚ) :
    Option (List (ℚ × ℚ × ℚ)) := do
  let total ← dists.getLast?
  let istep : ℤ := pyInt segment
  let boundaries0 : List ℚ :=
    (pyRange 0 (⌊total / segment⌋ * istep + istep + 1) istep).map fun z : ℤ => (z : ℚ)
  let blast ← boundaries0.getLast?
  let boundaries := if blast < total then boundaries0 ++ [total] else boundaries0
  (List.range (boundaries.length - 1)).mapM fun i => do
    let start_d ← boundaries.get? i
    let end_d ← boundaries.get? (i + 1)
    let start_e ← interpolate_elevation_checked start_d dists eles
    let end_e ← interpolate_elevation_checked end_d dists eles
    let seg_dist := end_d - start_d
    let slope ← if seg_dist ≠ 0 then safeDiv (end_e - start_e) seg_dist else pure 0
    pure (start_d, end_d, slope)

/-- A GPX track point `(lat, lon, ele)` in degrees/meters. -/
structure TrackPoint where
  lat : ℝ
  lon : ℝ
  ele : ℝ

/-- A GPX waypoint `(lat, lon, name)`. -/
structure Waypoint where
  lat : ℝ
  lon : ℝ
  name : String

/-- Python `math.radians`. -/
noncomputable def radians (deg : ℝ) : ℝ := deg * Real.pi / 180

/-- Python `math.atan2(y, x)`, by the usual case analysis on signs. -/
noncomputable def atan2 (y x : ℝ) : ℝ :=
  if 0 < x then Real.arctan (y / x)
  else if x < 0 ∧ 0 ≤ y then Real.arctan (y / x) + Real.pi
  else if x < 0 ∧ y < 0 then Real.arctan (y / x) - Real.pi
  else if x = 0 ∧ 0 < y then Real.pi / 2
  else if x = 0 ∧ y < 0 then -(Real.pi / 2)
  else 0

/-- `haversine(lat1, lon1, lat2, lon2)` (`gpx_analyzer.py` lines 9-19). -/
noncomputable def haversine (lat1 lon1 lat2 lon2 : ℝ) : ℝ :=
  let R : ℝ := 6371000
  let phi1 := radians lat1
  let phi2 := radians lat2
  let d_phi := radians (lat2 - lat1)
  let d_lambda := radians (lon2 - lon1)
  let a := Real.sin (d_phi / 2) ^ 2 +
    Real.cos phi1 * Real.cos phi2 * Real.sin (d_lambda / 2) ^ 2
  let c := 2 * atan2 (Real.sqrt a) (Real.sqrt (1 - a))
  R * c

/-- The accumulation loop of `compute_distances`: `acc` is the running
total `dists[-1]`, `prev` the previous track point. -/
noncomputable def compute_aux (prev : TrackPoint) (acc : ℝ) :
    List TrackPoint → List ℝ
  | [] => []
  | p :: rest =>
    (acc + haversine prev.lat prev.lon p.lat p.lon) ::
      compute_aux p (acc + haversine prev.lat prev.lon p.lat p.lon) rest

/-- `compute_distances(trkpts)` (`gpx_analyzer.py` lines 49-56). Note the
Python function returns `[0.0]` even for an empty input list. -/
noncomputable def compute_distances : List TrackPoint → List ℝ
  | [] => [0]
  | p :: rest => 0 :: compute_aux p 0 rest

/-- Python `enumerate` starting at `n`. -/
def pyEnum {α : Type} (n : ℕ) : List α → List (ℕ × α)
  | [] => []
  | a :: rest => (n, a) :: pyEnum (n + 1) rest

/-- One step of the nearest-track-point scan of `waypoint_positions`: the
state is `(min_idx, min_dist)`, where `min_dist : WithTop ℝ` starts at
`float('inf')` and the update uses strict `<`. -/
noncomputable def scan_step (s : ℕ × WithTop ℝ) (p : ℕ × ℝ) : ℕ × WithTop ℝ :=
  if (p.2 : WithTop ℝ) < s.2 then (p.1, (p.2 : WithTop ℝ)) else s

/-- The scan over the enumerated distance list, from `(0, inf)`. -/
noncomputable def scan_min (ds : List ℝ) : ℕ × WithTop ℝ :=
  (pyEnum 0 ds).foldl scan_step (0, ⊤)

/-- The waypoint-to-track-point distances computed inside the loop of
`waypoint_positions`, in track order. -/
noncomputable def dlist (w : Waypoint) (trkpts : List TrackPoint) : List ℝ :=
  trkpts.map fun t => haversine w.lat w.lon t.lat t.lon

/-- The `min_idx` result of the scan for one waypoint. -/
noncomputable def nearest_idx (w : Waypoint) (trkpts : List TrackPoint) : ℕ :=
  (scan_min (dlist w trkpts)).1

/-- `waypoint_positions(wpts, trkpts, dists)` (`gpx_analyzer.py` lines
105-117): one `(dists[min_idx], name)` per waypoint, in waypoint order. -/
noncomputable def waypoint_positions (wpts : List Waypoint) (trkpts : List TrackPoint)
    (dists : List ℝ) : List (Option ℝ × String) :=
  wpts.map fun w => (dists.get? (nearest_idx w trkpts), w.name)

/-- `i` is the smallest index attaining the minimum of `ds`. -/
def ArgminFirst (ds : List ℝ) (i : ℕ) : Prop :=
  i < ds.length ∧ (∀ j < ds.length, ds.getD i 0 ≤ ds.getD j 0) ∧
    ∀ j < i, ds.getD i 0 < ds.getD j 0

/-- The outcome of `main`: either the early message path, or rendering. -/
inductive MainResult where
  | noTrackMsg (msg : String) : MainResult
  | plot (dists eles : List ℝ) (wpts : List Waypoint) : MainResult

/-- `main` / `plot_profile` (`gpx_analyzer.py` lines 120-167), modulo I/O:
an empty parsed track prints a message and returns before any rendering;
otherwise `plot_profile` is invoked on the profile data. -/
noncomputable def main_model (trkpts : List TrackPoint) (wpts : List Waypoint) :
    MainResult :=
  match trkpts with
  | [] => MainResult.noTrackMsg "No track points found."
  | p :: rest =>
      MainResult.plot (compute_distances (p :: rest)) ((p :: rest).map TrackPoint.ele) wpts

/-- The value of the slope guard bind in `segment_slopes_checked`. -/
lemma slope_guard_bind (s e x y : ℚ) :
    (if y ≠ 0 then do
        let v ← safeDiv x y
        pure (s, e, v)
      else do
        let v ← (pure 0 : Option ℚ)
        pure (s, e, v)) =
    (pure (s, e, if y ≠ 0 then x / y else 0) : Option (ℚ × ℚ × ℚ)) := by
  by_cases h : y = 0 <;> simp [safeDiv, h]

/-- The checked interpolation loop agrees with the plain one: the source's
`d1 == d0` guard precedes its only division. -/
lemma interp_go_checked_eq (q : ℚ) (dists eles : List ℚ) :
    ∀ (rest : List ℚ) (i : ℕ),
      interp_go_checked q dists eles i rest = interp_go q dists eles i rest := by
  intro rest
  induction rest with
  | nil => intro i; rfl
  | cons di rest ih =>
    intro i
    simp only [interp_go, interp_go_checked]
    by_cases h1 : q ≤ di
    · simp only [if_pos h1]
      cases hd0 : dists.get? (i - 1) with
      | none => rfl
      | some d0 =>
        cases he0 : eles.get? (i - 1) with
        | none => rfl
        | some e0 =>
          cases he1 : eles.get? i with
          | none => rfl
          | some e1 =>
            by_cases h2 : di = d0
            · simp [h2]
            · simp [if_neg h2, safeDiv, sub_ne_zero_of_ne h2]
    · simp only [if_neg h1]
      exact ih (i + 1)

lemma interpolate_elevation_checked_eq (q : ℚ) (dists eles : List ℚ) :
    interpolate_elevation_checked q dists eles = interpolate_elevation q dists eles :=
  interp_go_checked_eq q dists eles (dists.drop 1) 1

lemma segment_slopes_checked_eq (dists eles : List ℚ) (segment : ℚ) :
    segment_slopes_checked dists eles segment = segment_slopes dists eles segment := by
  unfold segment_slopes segment_slopes_checked
  simp only [interpolate_elevation_checked_eq, slope_guard_bind, Option.some_bind]

/-- One skip step of the interpolation loop: when the probe `dists[j]` is
still below the query, the loop moves on to index `j + 1`. -/
lemma interp_go_skip (q : ℚ) (dists eles : List ℚ) (j : ℕ) (hj : j < dists.length)
    (hgt : dists.get ⟨j, hj⟩ < q) :
    interp_go q dists eles j (dists.drop j) =
      interp_go q dists eles (j + 1) (dists.drop (j + 1)) := by
  rw [List.drop_eq_get_cons hj]
  simp only [interp_go]
  rw [if_neg (not_le.mpr hgt)]

/-- Landing step of the interpolation loop: at index `i` with query
`dists[i]` and `dists[i-1] < dists[i]`, the interpolation ratio is 1 and the
loop returns `eles[i]`. -/
lemma interp_go_hit (q : ℚ) (dists eles : List ℚ) (i : ℕ) (hi : i < dists.length)
    (hlen : dists.length = eles.length)
    (hlt : ∀ h : i - 1 < dists.length, dists.get ⟨i - 1, h⟩ < dists.get ⟨i, hi⟩)
    (hq : q = dists.get ⟨i, hi⟩) :
    interp_go q dists eles i (dists.drop i) = eles.get? i := by
  have him1 : i - 1 < dists.length := lt_of_le_of_lt (Nat.sub_le i 1) hi
  have him1e : i - 1 < eles.length := hlen ▸ him1
  have hie : i < eles.length := hlen ▸ hi
  rw [List.drop_eq_get_cons hi]
  simp only [interp_go]
  rw [if_pos (le_of_eq hq)]
  rw [List.get?_eq_get him1, List.get?_eq_get him1e, List.get?_eq_get hie]
  have hne : dists.get ⟨i, hi⟩ ≠ dists.get ⟨i - 1, him1⟩ := ne_of_gt (hlt him1)
  simp only [if_neg hne]
  have hdne : dists.get ⟨i, hi⟩ - dists.get ⟨i - 1, him1⟩ ≠ 0 :=
    sub_ne_zero_of_ne hne
  rw [hq, div_self hdne, one_mul]
  ring_nf

/-- The interpolation loop started anywhere at or before index `i` lands at
`i` when the distances are strictly increasing and the query is `dists[i]`. -/
lemma interp_go_walk (dists eles : List ℚ) (i : ℕ) (hi : i < dists.length)
    (hlen : dists.length = eles.length)
    (hpw : ∀ (j k : ℕ) (hj : j < dists.length) (hk : k < dists.length), j < k →
      dists.get ⟨j, hj⟩ < dists.get ⟨k, hk⟩)
    (h1 : 1 ≤ i) :
    ∀ (n j : ℕ), 1 ≤ j → j + n = i →
      interp_go (dists.get ⟨i, hi⟩) dists eles j (dists.drop j) = eles.get? i := by
  intro n
  induction n with
  | zero =>
    intro j hj1 hji
    have hj : j = i := by omega
    subst hj
    exact interp_go_hit _ dists eles j hi hlen
      (fun h => hpw (j - 1) j h hi (by omega)) rfl
  | succ n ih =>
    intro j hj1 hji
    have hjlt : j < i := by omega
    have hjlen : j < dists.length := lt_trans hjlt hi
    rw [interp_go_skip _ dists eles j hjlen (hpw j i hjlen hi hjlt)]
    exact ih (j + 1) (by omega) (by omega)

section ClaimTheorems

/-- C1. The claim says the segments returned by `segment_slopes` tile
`[0, totalDistance]` with the last segment's end equal to `totalDistance`.
The code violates this: for the series `dists = [0, 250]`, `eles = [0, 10]`
(total distance 250) the produced boundaries are `[0, 100, 200, 300]` and the
last segment ends at 300, not at the total distance 250. -/
theorem C1_tiling_failing_input :
    segment_slopes [0, 250] [0, 10] 100 =
      some [(0, 100, 1/25), (100, 200, 1/25), (200, 300, 1/50)] ∧
    ([0, 250] : List ℚ).getLast? = some 250 ∧ (300 : ℚ) ≠ 250 := by
  refine ⟨?_, rfl, by norm_num⟩
  have hstep : pyInt 100 = 100 := by norm_num [pyInt]
  have hfl : ⌊(250 : ℚ) / 100⌋ = 2 := by norm_num
  have hq : pyRange 0 (2 * 100 + 100 + 1) 100 = [0, 100, 200, 300] := by decide
  have hb : ((pyRange 0 (2 * 100 + 100 + 1) 100).map fun z : ℤ => (z : ℚ)) =
      [0, 100, 200, 300] := by rw [hq]; norm_num
  simp only [segment_slopes]
  rw [show ([0, 250] : List ℚ).getLast? = some 250 from rfl]
  simp only [Option.bind_eq_bind, Option.some_bind]
  rw [hstep, hfl, hb]
  rw [show ([0, 100, 200, 300] : List ℚ).getLast? = some 300 from rfl]
  simp only [Option.some_bind]
  rw [if_neg (by norm_num : ¬ (300 : ℚ) < 250)]
  norm_num [interpolate_elevation, interp_go, List.mapM.loop,
    show List.range 3 = [0, 1, 2] from by decide,
    show ([0, 100, 200, 300] : List ℚ).get? 0 = some 0 from rfl,
    show ([0, 100, 200, 300] : List ℚ).get? 1 = some 100 from rfl,
    show ([0, 100, 200, 300] : List ℚ).get? 2 = some 200 from rfl,
    show ([0, 100, 200, 300] : List ℚ).get? 3 = some 300 from rfl]

/-- C2. The claim says that when `totalDistance` is an exact multiple of the
segment length the code returns exactly `totalDistance / segmentLength`
segments. The code violates this: for `dists = [0, 200]`, `eles = [0, 10]`
(total 200, an exact multiple of 100) it returns 3 segments, not
`200 / 100 = 2`; the extra trailing segment is `(200, 300, 0)`, ending
beyond the total distance. -/
theorem C2_segment_count_failing_input :
    (segment_slopes [0, 200] [0, 10] 100).map List.length = some 3 ∧
    segment_slopes [0, 200] [0, 10] 100 =
      some [(0, 100, 1/20), (100, 200, 1/20), (200, 300, 0)] ∧
    (200 : ℚ) / 100 = 2 := by
  have hstep : pyInt 100 = 100 := by norm_num [pyInt]
  have hfl : ⌊(200 : ℚ) / 100⌋ = 2 := by norm_num
  have hq : pyRange 0 (2 * 100 + 100 + 1) 100 = [0, 100, 200, 300] := by decide
  have hb : ((pyRange 0 (2 * 100 + 100 + 1) 100).map fun z : ℤ => (z : ℚ)) =
      [0, 100, 200, 300] := by rw [hq]; norm_num
  have heval : segment_slopes [0, 200] [0, 10] 100 =
      some [(0, 100, 1/20), (100, 200, 1/20), (200, 300, 0)] := by
    simp only [segment_slopes]
    rw [show ([0, 200] : List ℚ).getLast? = some 200 from rfl]
    simp only [Option.bind_eq_bind, Option.some_bind]
    rw [hstep, hfl, hb]
    rw [show ([0, 100, 200, 300] : List ℚ).getLast? = some 300 from rfl]
    simp only [Option.some_bind]
    rw [if_neg (by norm_num : ¬ (300 : ℚ) < 200)]
    norm_num [interpolate_elevation, interp_go, List.mapM.loop,
      show List.range 3 = [0, 1, 2] from by decide,
      show ([0, 100, 200, 300] : List ℚ).get? 0 = some 0 from rfl,
      show ([0, 100, 200, 300] : List ℚ).get? 1 = some 100 from rfl,
      show ([0, 100, 200, 300] : List ℚ).get? 2 = some 200 from rfl,
      show ([0, 100, 200, 300] : List ℚ).get? 3 = some 300 from rfl]
  exact ⟨by rw [heval]; rfl, heval, by norm_num⟩

/-- `atan2` of a non-negative first argument is non-negative. -/
lemma atan2_nonneg (y x : ℝ) (hy : 0 ≤ y) : 0 ≤ atan2 y x := by
  unfold atan2
  split_ifs with h1 h2 h3 h4 h5
  · have := Real.arctan_strictMono.monotone (div_nonneg hy h1.le)
    rwa [Real.arctan_zero] at this
  · have := Real.neg_pi_div_two_lt_arctan (y / x)
    have hpi := Real.pi_pos
    linarith
  · exact absurd h3.2 (not_lt.mpr hy)
  · have hpi := Real.pi_pos
    linarith
  · exact absurd h5.2 (not_lt.mpr hy)
  · exact le_refl 0

/-- The haversine distance is never negative. -/
lemma haversine_nonneg (lat1 lon1 lat2 lon2 : ℝ) :
    0 ≤ haversine lat1 lon1 lat2 lon2 := by
  simp only [haversine]
  exact mul_nonneg (by norm_num)
    (mul_nonneg (by norm_num) (atan2_nonneg _ _ (Real.sqrt_nonneg _)))

/-- The running-total loop of `compute_distances` yields a non-decreasing
chain from any starting total. -/
lemma compute_aux_chain (pts : List TrackPoint) :
    ∀ (prev : TrackPoint) (acc : ℝ),
      List.Chain' (· ≤ ·) (acc :: compute_aux prev acc pts) := by
  induction pts with
  | nil => intro prev acc; simp [compute_aux]
  | cons p rest ih =>
    intro prev acc
    simp only [compute_aux]
    rw [List.chain'_cons]
    exact ⟨le_add_of_nonneg_right (haversine_nonneg _ _ _ _), ih p _⟩

/-- The accumulation loop emits one distance per remaining track point. -/
lemma compute_aux_length (pts : List TrackPoint) :
    ∀ (prev : TrackPoint) (acc : ℝ),
      (compute_aux prev acc pts).length = pts.length := by
  induction pts with
  | nil => intro prev acc; rfl
  | cons p rest ih => intro prev acc; simp [compute_aux, ih p]

lemma pyEnum_append {α : Type} (l : List α) (a : α) :
    ∀ n, pyEnum n (l ++ [a]) = pyEnum n l ++ [(n + l.length, a)] := by
  induction l with
  | nil => intro n; simp [pyEnum]
  | cons b rest ih =>
    intro n
    have harith : n + 1 + rest.length = n + (rest.length + 1) := by omega
    simp only [List.cons_append, pyEnum, List.length_cons]
    rw [show rest.append [a] = rest ++ [a] from rfl, ih (n + 1), harith]

lemma scan_min_snoc (ds : List ℝ) (d : ℝ) :
    scan_min (ds ++ [d]) = scan_step (scan_min ds) (ds.length, d) := by
  unfold scan_min
  rw [pyEnum_append ds d 0, List.foldl_append]
  simp

/-- The nearest-point scan returns the first index attaining the minimum
distance (strict `<` keeps the earlier index on ties), together with that
minimum as its second component. -/
lemma scan_min_spec (ds : List ℝ) (hne : ds ≠ []) :
    ArgminFirst ds (scan_min ds).1 ∧
    (scan_min ds).2 = ((ds.getD (scan_min ds).1 0 : ℝ) : WithTop ℝ) := by
  induction ds using List.reverseRecOn with
  | nil => exact absurd rfl hne
  | append_singleton l d ih =>
    rcases eq_or_ne l [] with hl | hl
    · subst hl
      have h0 : scan_min [d] = (0, (d : WithTop ℝ)) := by
        simp [scan_min, pyEnum, scan_step]
      rw [List.nil_append] at *
      rw [h0]
      refine ⟨⟨by simp, ?_, ?_⟩, by simp⟩
      · intro j hj
        simp only [List.length_singleton] at hj
        interval_cases j
        exact le_refl _
      · intro j hj
        omega
    · obtain ⟨⟨hlen, hmin, hfirst⟩, hm⟩ := ih hl
      have hsml : scan_min l =
          ((scan_min l).1, ((l.getD (scan_min l).1 0 : ℝ) : WithTop ℝ)) :=
        Prod.ext rfl hm
      rw [scan_min_snoc l d, hsml]
      set i := (scan_min l).1 with hidef
      set m := l.getD i 0 with hmdef
      have hdd : (l ++ [d]).getD l.length 0 = d := by
        rw [List.getD_append_right l [d] 0 l.length (le_refl _)]
        simp
      have higet : (l ++ [d]).getD i 0 = m := by
        rw [List.getD_append l [d] 0 i hlen]
      simp only [scan_step]
      by_cases hdm : d < m
      · rw [if_pos (by exact_mod_cast hdm)]
        refine ⟨⟨by simp, ?_, ?_⟩, by rw [hdd]⟩
        · intro j hj
          simp only [List.length_append, List.length_singleton] at hj
          rw [hdd]
          rcases Nat.lt_or_ge j l.length with hjl | hjl
          · rw [List.getD_append l [d] 0 j hjl]
            exact le_of_lt (lt_of_lt_of_le hdm (hmin j hjl))
          · have hje : j = l.length := by omega
            subst hje
            rw [hdd]
        · intro j hj
          rw [hdd, List.getD_append l [d] 0 j hj]
          exact lt_of_lt_of_le hdm (hmin j hj)
      · rw [if_neg (by exact_mod_cast hdm)]
        refine ⟨⟨?_, ?_, ?_⟩, by rw [higet]⟩
        · simp only [List.length_append, List.length_singleton]
          omega
        · intro j hj
          simp only [List.length_append, List.length_singleton] at hj
          rw [higet]
          rcases Nat.lt_or_ge j l.length with hjl | hjl
          · rw [List.getD_append l [d] 0 j hjl]
            exact hmin j hjl
          · have hje : j = l.length := by omega
            subst hje
            rw [hdd]
            exact not_lt.mp hdm
        · intro j hj
          rw [higet, List.getD_append l [d] 0 j (lt_trans hj hlen)]
          exact hfirst j hj

/-- The haversine distance from a point to itself is zero. -/
lemma haversine_self (lat lon : ℝ) : haversine lat lon lat lon = 0 := by
  simp only [haversine, radians, sub_self, zero_mul, zero_div, Real.sin_zero]
  norm_num [atan2, Real.arctan_zero]

/-- The haversine distance between the equator points at longitudes 180 and 0
(antipodal) is half the sphere circumference. -/
lemma haversine_wp0 : haversine 0 180 0 0 = 6371000 * Real.pi := by
  simp only [haversine, radians]
  rw [show ((0 : ℝ) - 180) * Real.pi / 180 / 2 = -(Real.pi / 2) by ring]
  rw [show ((0 : ℝ) - 0) * Real.pi / 180 / 2 = 0 by ring]
  rw [show (0 : ℝ) * Real.pi / 180 = 0 by ring]
  rw [Real.sin_zero, Real.cos_zero, Real.sin_neg, Real.sin_pi_div_two]
  norm_num [atan2]
  ring

/-- On a 3-point track whose second point coincides with the waypoint, the
scan settles on index 1. -/
lemma nearest_idx_eval :
    nearest_idx ⟨0, 180, "w"⟩ [⟨0, 0, 0⟩, ⟨0, 180, 0⟩, ⟨0, 90, 0⟩] = 1 := by
  have hpos : (0 : ℝ) < haversine 0 180 0 0 := by
    rw [haversine_wp0]; positivity
  have hzero : haversine 0 180 0 180 = 0 := haversine_self 0 180
  have hnn : (0 : ℝ) ≤ haversine 0 180 0 90 := haversine_nonneg 0 180 0 90
  unfold nearest_idx dlist scan_min
  simp only [List.map_cons, List.map_nil]
  rw [hzero]
  simp only [pyEnum, List.foldl_cons, List.foldl_nil]
  rw [show scan_step (0, ⊤) (0, haversine 0 180 0 0) =
      (0, (haversine 0 180 0 0 : WithTop ℝ)) from by simp [scan_step]]
  rw [show scan_step (0, (haversine 0 180 0 0 : WithTop ℝ)) (1, (0 : ℝ)) =
      (1, ((0 : ℝ) : WithTop ℝ)) from by simp [scan_step, WithTop.coe_lt_coe, hpos]]
  rw [show scan_step (1, ((0 : ℝ) : WithTop ℝ)) (2, haversine 0 180 0 90) =
      (1, ((0 : ℝ) : WithTop ℝ)) from by
    simp [scan_step, WithTop.coe_lt_coe, not_lt.mpr hnn]]

/-- C4. For every non-empty track with latitudes in `[-90, 90]`, the
cumulative distance series starts at 0 and is non-decreasing. -/
theorem C4_distances_monotone (trkpts : List TrackPoint) (hne : trkpts ≠ [])
    (hlat : ∀ p ∈ trkpts, -90 ≤ p.lat ∧ p.lat ≤ 90) :
    (compute_distances trkpts).head? = some 0 ∧
    List.Chain' (· ≤ ·) (compute_distances trkpts) := by
  cases trkpts with
  | nil => exact absurd rfl hne
  | cons p rest => exact ⟨rfl, compute_aux_chain rest p 0⟩

/-- C4 witness: the one-point track at the origin. -/
theorem C4_distances_witness :
    (compute_distances [⟨0, 0, 0⟩]).head? = some 0 ∧
    List.Chain' (· ≤ ·) (compute_distances [⟨0, 0, 0⟩]) :=
  C4_distances_monotone [⟨0, 0, 0⟩] (by simp)
    (by
      intro p hp
      rw [List.mem_singleton] at hp
      subst hp
      norm_num)

/-- C6. Each waypoint, in input order, is reported at `dists[min_idx]` where
`min_idx` is the smallest index minimizing the haversine distance to the
track points (strict `<` keeps the first occurrence on ties); and on a
3-point track whose point 1 coincides with the waypoint, the reported
position is exactly `dists[1]`. -/
theorem C6_waypoint_projection :
    (∀ (wpts : List Waypoint) (trkpts : List TrackPoint) (dists : List ℝ),
      trkpts ≠ [] →
      ((waypoint_positions wpts trkpts dists).length = wpts.length ∧
       ∀ (j : ℕ) (w : Waypoint), wpts.get? j = some w →
         (waypoint_positions wpts trkpts dists).get? j =
           some (dists.get? (nearest_idx w trkpts), w.name) ∧
         ArgminFirst (dlist w trkpts) (nearest_idx w trkpts))) ∧
    (∀ d0 d1 d2 : ℝ,
      waypoint_positions [⟨0, 180, "w"⟩] [⟨0, 0, 0⟩, ⟨0, 180, 0⟩, ⟨0, 90, 0⟩]
        [d0, d1, d2] = [(some d1, "w")]) := by
  constructor
  · intro wpts trkpts dists hne
    constructor
    · simp [waypoint_positions]
    · intro j w hw
      refine ⟨?_, ?_⟩
      · simp only [waypoint_positions]
        rw [List.get?_map, hw]
        rfl
      · have hdne : dlist w trkpts ≠ [] := by
          simp only [dlist, ne_eq, List.map_eq_nil_iff]
          exact hne
        exact (scan_min_spec (dlist w trkpts) hdne).1
  · intro d0 d1 d2
    simp [waypoint_positions, nearest_idx_eval]

/-- C6 witness: the concrete 3-point track with distance series
`[10, 20, 30]`; the waypoint coincident with point 1 is reported at
`dists[1] = 20`. -/
theorem C6_waypoint_witness :
    waypoint_positions [⟨0, 180, "w"⟩] [⟨0, 0, 0⟩, ⟨0, 180, 0⟩, ⟨0, 90, 0⟩]
      [(10 : ℝ), 20, 30] = [(some 20, "w")] :=
  C6_waypoint_projection.2 10 20 30

/-- C7 counterexample: for the empty track, `compute_distances` returns
`[0.0]` of length 1, not an empty series of length 0. -/
theorem C7_length_counterexample :
    (compute_distances []).length ≠ ([] : List TrackPoint).length := by
  rw [show compute_distances [] = [0] from rfl]
  decide

/-- C7 (amended: the lengths agree for every non-empty input; on the empty
input the result is `[0.0]`, so the length is `max n 1`, not `n`). -/
theorem C7_length (trkpts : List TrackPoint) :
    (compute_distances trkpts).length = max trkpts.length 1 := by
  cases trkpts with
  | nil => rfl
  | cons p rest =>
    simp only [compute_distances, List.length_cons, compute_aux_length]
    omega

/-- C8. On an empty parsed track, `main` takes the early clean-return path:
it produces the "No track points found." message and never reaches
rendering. -/
theorem C8_empty_track_clean_return (wpts : List Waypoint) :
    main_model [] wpts = MainResult.noTrackMsg "No track points found." ∧
    ∀ (dists eles : List ℝ) (w : List Waypoint),
      main_model [] wpts ≠ MainResult.plot dists eles w := by
  refine ⟨rfl, ?_⟩
  intro _ _ _ h
  exact MainResult.noConfusion h

/-- C3 counterexample. The claim quantifies over all profile-builder series,
which are only non-decreasing: for the non-decreasing series
`dists = [0, 100, 100]` (duplicate point) aligned with `eles = [0, 5, 9]`
and `i = 2`, the query `dists[2] = 100` lands on the interval `[0, 100]`
with ratio 1 and returns `eles[1] = 5`, not `eles[2] = 9`. -/
theorem C3_roundtrip_counterexample :
    List.Chain' (· ≤ ·) [(0 : ℚ), 100, 100] ∧
    ([(0 : ℚ), 100, 100]).head? = some 0 ∧
    ([(0 : ℚ), 100, 100]).length = ([(0 : ℚ), 5, 9]).length ∧
    ([(0 : ℚ), 100, 100]).get? 2 = some 100 ∧
    interpolate_elevation 100 [0, 100, 100] [0, 5, 9] = some 5 ∧
    ([(0 : ℚ), 5, 9]).get? 2 = some 9 ∧ (5 : ℚ) ≠ 9 := by
  refine ⟨?_, rfl, rfl, rfl, ?_, rfl, by norm_num⟩
  · norm_num [List.chain'_cons, List.chain'_singleton]
  · norm_num [interpolate_elevation, interp_go]

/-- C3 (amended: distances strictly increasing, i.e. no duplicate points).
For every strictly increasing distance series starting at 0 and aligned
elevation series, interpolating at `dists[i]` returns exactly `eles[i]`. -/
theorem C3_interpolation_round_trip (dists eles : List ℚ)
    (hmono : List.Chain' (· < ·) dists) (hhead : dists.head? = some 0)
    (hlen : dists.length = eles.length) (i : ℕ) (hi : i < dists.length) :
    interpolate_elevation (dists.get ⟨i, hi⟩) dists eles = eles.get? i := by
  have hpw : ∀ (j k : ℕ) (hj : j < dists.length) (hk : k < dists.length), j < k →
      dists.get ⟨j, hj⟩ < dists.get ⟨k, hk⟩ := by
    intro j k hj hk hjk
    exact List.pairwise_iff_get.mp (List.chain'_iff_pairwise.mp hmono) ⟨j, hj⟩ ⟨k, hk⟩ hjk
  unfold interpolate_elevation
  rcases Nat.eq_zero_or_pos i with hi0 | hipos
  · subst hi0
    cases dists with
    | nil => exact absurd hi (by simp)
    | cons d rest =>
      cases rest with
      | nil =>
        cases eles with
        | nil => simp at hlen
        | cons e tl =>
          cases tl with
          | nil => rfl
          | cons e2 tl2 => simp at hlen
      | cons d2 rest2 =>
        have hd12 : d < d2 := (List.chain'_cons.mp hmono).1
        cases eles with
        | nil => simp at hlen
        | cons e tl =>
          cases tl with
          | nil => simp at hlen
          | cons e2 tl2 =>
            show interp_go d (d :: d2 :: rest2) (e :: e2 :: tl2) 1 (d2 :: rest2) = some e
            simp only [interp_go]
            rw [if_pos (le_of_lt hd12)]
            show (if d2 = d then some e2
              else some (e + (d - d) / (d2 - d) * (e2 - e))) = some e
            rw [if_neg (ne_of_gt hd12)]
            rw [sub_self, zero_div, zero_mul, add_zero]
  · exact interp_go_walk dists eles i hi hlen hpw hipos (i - 1) 1 le_rfl (by omega)

/-- C3 witness: a concrete strictly increasing series where the round trip
holds, `interpolate_elevation(dists[1], [0, 100], [3, 7]) = 7`. -/
theorem C3_round_trip_witness :
    interpolate_elevation (([(0 : ℚ), 100]).get ⟨1, by decide⟩) [0, 100] [3, 7] =
      ([(3 : ℚ), 7]).get? 1 :=
  C3_interpolation_round_trip [0, 100] [3, 7]
    (by norm_num [List.chain'_cons, List.chain'_singleton]) rfl rfl 1 (by decide)

/-- C5. `slope_to_color` classifies by percent grade (`slope * 100`) with
strict `<` boundaries: `< 0` is blue (downhill), `[0, 3)` darkgreen,
`[3, 6)` limegreen, `[6, 10)` yellow, `[10, 15)` orange, `≥ 15` red. -/
theorem C5_classifier_boundaries (q : ℚ) :
    (q * 100 < 0 → slope_to_color (Fl.val q) = "blue") ∧
    (0 ≤ q * 100 → q * 100 < 3 → slope_to_color (Fl.val q) = "darkgreen") ∧
    (3 ≤ q * 100 → q * 100 < 6 → slope_to_color (Fl.val q) = "limegreen") ∧
    (6 ≤ q * 100 → q * 100 < 10 → slope_to_color (Fl.val q) = "yellow") ∧
    (10 ≤ q * 100 → q * 100 < 15 → slope_to_color (Fl.val q) = "orange") ∧
    (15 ≤ q * 100 → slope_to_color (Fl.val q) = "red") := by
  refine ⟨fun h0 => ?_, fun h0 h1 => ?_, fun h0 h1 => ?_, fun h0 h1 => ?_,
    fun h0 h1 => ?_, fun h0 => ?_⟩ <;>
    simp only [slope_to_color, flMul, flLt, decide_eq_true_eq]
  · rw [if_pos h0]
  · rw [if_neg (not_lt.mpr h0), if_pos h1]
  · rw [if_neg (not_lt.mpr (by linarith)), if_neg (not_lt.mpr h0), if_pos h1]
  · rw [if_neg (not_lt.mpr (by linarith)), if_neg (not_lt.mpr (by linarith)),
      if_neg (not_lt.mpr h0), if_pos h1]
  · rw [if_neg (not_lt.mpr (by linarith)), if_neg (not_lt.mpr (by linarith)),
      if_neg (not_lt.mpr (by linarith)), if_neg (not_lt.mpr h0), if_pos h1]
  · rw [if_neg (not_lt.mpr (by linarith)), if_neg (not_lt.mpr (by linarith)),
      if_neg (not_lt.mpr (by linarith)), if_neg (not_lt.mpr (by linarith)),
      if_neg (not_lt.mpr h0)]

/-- C5 witness: the eleven percent grades named by the spec
(-0.1, 0, 2.9, 3, 5.9, 6, 9.9, 10, 14.9, 15, 20, as slope ratios) map to
their documented categories. -/
theorem C5_classifier_witness :
    slope_to_color (Fl.val (-1/1000)) = "blue" ∧
    slope_to_color (Fl.val 0) = "darkgreen" ∧
    slope_to_color (Fl.val (29/1000)) = "darkgreen" ∧
    slope_to_color (Fl.val (3/100)) = "limegreen" ∧
    slope_to_color (Fl.val (59/1000)) = "limegreen" ∧
    slope_to_color (Fl.val (6/100)) = "yellow" ∧
    slope_to_color (Fl.val (99/1000)) = "yellow" ∧
    slope_to_color (Fl.val (1/10)) = "orange" ∧
    slope_to_color (Fl.val (149/1000)) = "orange" ∧
    slope_to_color (Fl.val (15/100)) = "red" ∧
    slope_to_color (Fl.val (2/10)) = "red" :=
  ⟨(C5_classifier_boundaries _).1 (by norm_num),
   (C5_classifier_boundaries _).2.1 (by norm_num) (by norm_num),
   (C5_classifier_boundaries _).2.1 (by norm_num) (by norm_num),
   (C5_classifier_boundaries _).2.2.1 (by norm_num) (by norm_num),
   (C5_classifier_boundaries _).2.2.1 (by norm_num) (by norm_num),
   (C5_classifier_boundaries _).2.2.2.1 (by norm_num) (by norm_num),
   (C5_classifier_boundaries _).2.2.2.1 (by norm_num) (by norm_num),
   (C5_classifier_boundaries _).2.2.2.2.1 (by norm_num) (by norm_num),
   (C5_classifier_boundaries _).2.2.2.2.1 (by norm_num) (by norm_num),
   (C5_classifier_boundaries _).2.2.2.2.2 (by norm_num),
   (C5_classifier_boundaries _).2.2.2.2.2 (by norm_num)⟩

/-- C9. With every division of `interpolate_elevation` and `segment_slopes`
routed through a failing division check, the results are unchanged: the
source's own guards (`d1 == d0` and `seg_dist != 0`) precede every division,
so no division by zero is ever evaluated. -/
theorem C9_no_division_by_zero (dists eles : List ℚ) (h1 : 1 ≤ dists.length)
    (h2 : dists.length = eles.length) :
    (∀ q, interpolate_elevation_checked q dists eles = interpolate_elevation q dists eles) ∧
    (∀ segment, segment_slopes_checked dists eles segment =
      segment_slopes dists eles segment) :=
  ⟨fun q => interpolate_elevation_checked_eq q dists eles,
   fun segment => segment_slopes_checked_eq dists eles segment⟩

/-- C9 witness: on the degenerate series `[0, 0]` (zero-length interval),
both checked pipelines agree with the plain ones, so the guards fired instead
of a division by zero. -/
theorem C9_no_division_witness :
    interpolate_elevation_checked 0 [0, 0] [1, 2] = interpolate_elevation 0 [0, 0] [1, 2] ∧
    segment_slopes_checked [0, 0] [1, 2] 100 = segment_slopes [0, 0] [1, 2] 100 :=
  ⟨(C9_no_division_by_zero [0, 0] [1, 2] (by decide) (by decide)).1 0,
   (C9_no_division_by_zero [0, 0] [1, 2] (by decide) (by decide)).2 100⟩

/-- C10. `slope_to_color` is total: every float input, NaN included, gets one
of the six category colors; a NaN slope makes every `<` comparison false, so
it falls through every branch to "red". -/
theorem C10_total_and_nan_red :
    (∀ x : Fl, slope_to_color x = "blue" ∨ slope_to_color x = "darkgreen" ∨
      slope_to_color x = "limegreen" ∨ slope_to_color x = "yellow" ∨
      slope_to_color x = "orange" ∨ slope_to_color x = "red") ∧
    slope_to_color Fl.nan = "red" := by
  refine ⟨fun x => ?_, rfl⟩
  simp only [slope_to_color]
  split_ifs <;> simp

end ClaimTheorems

end GpxAnalyzer
